import Mathlib

/-!
Verification development for mexec.c (Nohed/minimal-exec): a program that
executes the command lines of its input as one shell pipeline.

Each C function is shallowly embedded as a pure Lean function.  OS calls
(`fgets`, `pipe`, `fork`, `close`, `waitpid`, `execlp`, `fopen`) are
modelled by outcome oracles passed in as arguments, so every control path
of the C code is represented: a `Bool` oracle says whether the call
succeeds, and `waitpid` additionally yields the raw wait status it would
store.  All definitions are computable and follow the C source line by
line; machine `int` values appear as `Int`/`Nat` since no arithmetic in
the program can overflow.
-/

namespace Mexec

/-- The NUL character (value 0), the C string terminator. -/
def NUL : Char := Char.ofNat 0

/-- Model of one `fgets(line, 1024, fp)` call working on the remaining
input stream: it stores at most `cap` characters (1023 at the top-level
call, since one byte of the 1024-byte buffer is reserved for the
terminator), stopping after a newline.  Returns the characters stored
before the terminator together with the remaining input. -/
def fgetsTake : Nat → List Char → List Char × List Char
  | _, [] => ([], [])
  | 0, rest => ([], rest)
  | k+1, c :: rest =>
    if c = '\n' then ([c], rest)
    else
      let p := fgetsTake k rest
      (c :: p.1, p.2)

/-- `fgets(line, sizeof(line), fp)` at mexec.c:98: returns `none` (NULL)
at end of input, otherwise the stored chunk and the remaining stream. -/
def fgets (input : List Char) : Option (List Char × List Char) :=
  match input with
  | [] => none
  | _ :: _ => some (fgetsTake 1023 input)

/-- The C string held by the line buffer: its characters up to the first
NUL byte (`fgets` appends a terminator after the chunk, but a NUL byte
read from the stream itself also terminates the string). -/
def cstr (chunk : List Char) : List Char := chunk.takeWhile (fun c => c ≠ NUL)

/-- `strlen(line)` on the buffer contents. -/
def cStrlen (chunk : List Char) : Nat := (cstr chunk).length

/-- The index `strlen(line) - 1` accessed by the newline strip at
mexec.c:101, as a mathematical integer.  (In C the subtraction is done
in `size_t`, so for `strlen = 0` it wraps to `SIZE_MAX`; either reading
is out of bounds for the 1024-byte buffer, and we model the offset as
`-1`.) -/
def stripIndex (chunk : List Char) : Int := (cStrlen chunk : Int) - 1

/-- The newline strip plus `strdup` of mexec.c:100-107: if the character
at index `strlen - 1` is a newline it is overwritten with NUL, and the
resulting string is duplicated.  For an empty string the C code reads
out of bounds (see C10); the model leaves an empty string unchanged. -/
def stripAndDup (chunk : List Char) : List Char :=
  let s := cstr chunk
  if s.getLast? = some '\n' then s.dropLast else s

/-- The `read_input` loop (mexec.c:98-125) with explicit fuel: each
iteration reads one chunk with `fgets`, strips a trailing newline and
appends the duplicated string to the command array. -/
def read_inputFuel : Nat → List Char → List (List Char)
  | 0, _ => []
  | fuel+1, input =>
    match fgets input with
    | none => []
    | some (chunk, rest) => stripAndDup chunk :: read_inputFuel fuel rest

/-- `read_input` (mexec.c:92-128): the list of command strings read from
the stream.  Fuel `input.length + 1` always suffices because every
successful `fgets` consumes at least one character. -/
def read_input (input : List Char) : List (List Char) :=
  read_inputFuel (input.length + 1) input

/-- How the program ends: `exit(EXIT_SUCCESS)` or `exit(EXIT_FAILURE)`
after the given `perror`/`fprintf` diagnostic (all diagnostics go to
standard error). -/
inductive ExitStatus
  | success
  | failure (msg : String)
  deriving DecidableEq, Repr

/-- How a child process terminated: normal exit with a code, or killed
by a signal. -/
inductive Termination
  | exited (code : Nat)
  | signaled (sig : Nat)
  deriving DecidableEq, Repr

/-- The raw `waitpid` status word under the POSIX encoding: the exit
code sits in bits 8-15, the killing signal in the low 7 bits. -/
def encodeStatus : Termination → Int
  | .exited c => (c : Int) * 256
  | .signaled s => (s : Int)

/-- Well-formedness of a termination: exit codes are 8-bit values and
signal numbers are nonzero and below 128. -/
def validTermB : Termination → Bool
  | .exited c => decide (c < 256)
  | .signaled s => decide (0 < s ∧ s < 128)

/-- The loop of `create_pipes` (mexec.c:236-243).  `pipeOk i` tells
whether the i-th `pipe()` call succeeds; the first argument is the loop
counter (equal to the number of pipes created so far), the second the
number of iterations left.  Returns the number of pipe pairs created and
the fatal diagnostic if a `pipe()` call failed. -/
def create_pipesLoop (pipeOk : Nat → Bool) : Nat → Nat → Nat × Option String
  | i, 0 => (i, none)
  | i, r+1 =>
    if pipeOk i then create_pipesLoop pipeOk (i + 1) r
    else (i, some "Pipe failed")

/-- `create_pipes` (mexec.c:234-244): runs `pipe()` for every index
below `number_of_commands - 1` (C `int` arithmetic; the loop body never
runs when `n = 0` or `n = 1`, which Nat subtraction also gives). -/
def create_pipes (n : Nat) (pipeOk : Nat → Bool) : Nat × Option String :=
  create_pipesLoop pipeOk 0 (n - 1)

/-- The launch loop of `main` (mexec.c:72-75) as seen by the parent: for
each index, `fork()`; on failure `exec_command` reports and exits the
program (mexec.c:146-150); on success the parent stores the child's pid
at position i and immediately continues.  `pid i` is the process id the
i-th successful fork returns to the parent.  Returns the recorded pids
in order, and the fatal diagnostic if a fork failed. -/
def launchLoop (forkOk : Nat → Bool) (pid : Nat → Int) : Nat → Nat → List Int × Option String
  | _, 0 => ([], none)
  | i, r+1 =>
    if forkOk i then
      let p := launchLoop forkOk pid (i + 1) r
      (pid i :: p.1, p.2)
    else ([], some "Fork failed")

/-- All `n` launches, starting at index 0. -/
def launchRun (n : Nat) (forkOk : Nat → Bool) (pid : Nat → Int) : List Int × Option String :=
  launchLoop forkOk pid 0 n

/-- `close_pipes` (mexec.c:253-260): closes the read end then the write
end of every pipe pair.  `closeRes i` gives the success of the two
`close` calls for pair i.  The C code discards both return values, so
the function cannot fail; the model records the outcomes of the `close`
calls in order so that theorems can speak about them. -/
def close_pipesLoop (closeRes : Nat → Bool × Bool) : Nat → Nat → List Bool
  | _, 0 => []
  | i, r+1 => (closeRes i).1 :: (closeRes i).2 :: close_pipesLoop closeRes (i + 1) r

/-- `close_pipes` over all `n - 1` pipe pairs. -/
def close_pipes (n : Nat) (closeRes : Nat → Bool × Bool) : List Bool :=
  close_pipesLoop closeRes 0 (n - 1)

/-- Outcome of `wait_for_processes`: the loop ran to completion, or the
program called `exit(EXIT_FAILURE)` while looking at index i. -/
inductive WaitOutcome
  | completed
  | failedAt (i : Nat)
  deriving DecidableEq, Repr

/-- The loop of `wait_for_processes` (mexec.c:216-224).  `waitRes i` is
`some st` when `waitpid(processes[i], &status, 0)` succeeds and stores
the raw status `st`, and `none` when `waitpid` fails — in which case the
C code leaves `status` unchanged, because the return value of `waitpid`
is never inspected.  The first argument is the current value of the
local `status` variable (uninitialized at entry, mexec.c:215). -/
def waitLoop (waitRes : Nat → Option Int) : Int → Nat → Nat → WaitOutcome
  | _, _, 0 => .completed
  | status, i, r+1 =>
    let status' := (waitRes i).getD status
    if status' ≠ 0 then .failedAt i
    else waitLoop waitRes status' (i + 1) r

/-- `wait_for_processes` (mexec.c:213-225) over `n` recorded processes,
with `status0` the arbitrary initial value of the uninitialized local
`status`. -/
def wait_for_processes (n : Nat) (waitRes : Nat → Option Int) (status0 : Int) : WaitOutcome :=
  waitLoop waitRes status0 0 n

/-- All OS-call outcome oracles a run of the program consumes. -/
structure Oracles where
  pipeOk : Nat → Bool
  forkOk : Nat → Bool
  pid : Nat → Int
  closeRes : Nat → Bool × Bool
  waitRes : Nat → Option Int
  status0 : Int

/-- Where the command list is read from. -/
inductive CmdSource
  | fromStdin
  | fromFile
  deriving DecidableEq, Repr

/-- The argument dispatch of `main` (mexec.c:41-63).  `argc` counts the
program name, so zero user arguments means `argc = 1`.  `fopenOk` tells
whether `fopen(argv[1], "r")` would succeed. -/
def chooseSource (argc : Nat) (fopenOk : Bool) : Except String CmdSource :=
  if argc = 1 then .ok .fromStdin
  else if argc = 2 then
    if fopenOk then .ok .fromFile else .error "File could not be opened"
  else .error "Wrong number of arguments"

/-- Observable outcome of one run of `main`: how many `pipe()` calls
succeeded, how many children were launched, the recorded pids in order,
the outcomes of the parent's `close` calls, how many `waitpid` calls
were made, and how the program exited. -/
structure MainResult where
  pipesCreated : Nat
  launched : Nat
  pids : List Int
  closeResults : List Bool
  waits : Nat
  exit : ExitStatus
  deriving DecidableEq, Repr

/-- The pipeline phase of `main` (mexec.c:65-80), entered once the
command list is in hand: create all pipes, launch all commands, close
the parent's pipe descriptors, wait for the children, exit 0. -/
def pipelineRun (n : Nat) (orc : Oracles) : MainResult :=
  match create_pipes n orc.pipeOk with
  | (created, some m) => ⟨created, 0, [], [], 0, .failure m⟩
  | (created, none) =>
    match launchRun n orc.forkOk orc.pid with
    | (pids, some m) => ⟨created, pids.length, pids, [], 0, .failure m⟩
    | (pids, none) =>
      let closes := close_pipes n orc.closeRes
      match wait_for_processes n orc.waitRes orc.status0 with
      | .completed => ⟨created, pids.length, pids, closes, n, .success⟩
      | .failedAt i => ⟨created, pids.length, pids, closes, i + 1, .failure "Child process failed"⟩

/-- `main` (mexec.c:35-81): argument dispatch, then the pipeline phase
on the `n` commands read (reading itself is modelled by `read_input`). -/
def mainRun (argc : Nat) (fopenOk : Bool) (n : Nat) (orc : Oracles) : MainResult :=
  match chooseSource argc fopenOk with
  | .error m => ⟨0, 0, [], [], 0, .failure m⟩
  | .ok _ => pipelineRun n orc

/-- What a child's standard stream refers to after the rewiring in
`exec_command`: the stream inherited from the parent, or a duplicated
pipe end (`pipeRd j` = read end of pipe j, `pipeWr j` = write end). -/
inductive StdSrc
  | inherited
  | pipeRd (j : Nat)
  | pipeWr (j : Nat)
  deriving DecidableEq, Repr

/-- Descriptor state of a child between fork and exec: which pipe-bank
descriptors `(pair index, isWriteEnd)` are still open in the child, and
what its standard input/output refer to. -/
structure ChildState where
  opens : Nat × Bool → Bool
  stdinSrc : StdSrc
  stdoutSrc : StdSrc

/-- Closing one pipe-bank descriptor. -/
def closeFd (p : Nat × Bool) (f : Nat × Bool → Bool) : Nat × Bool → Bool :=
  fun q => if q = p then false else f q

/-- The effect of `close_pipes` on a descriptor table: both ends of
every pair below `m` get closed (closing an already-closed descriptor
just fails, and the return value is discarded). -/
def closeUpTo : Nat → (Nat × Bool → Bool) → Nat × Bool → Bool
  | 0, f => f
  | k+1, f => closeFd (k, true) (closeFd (k, false) (closeUpTo k f))

/-- The child branch of `exec_command` (mexec.c:152-181) for command
index i of n: the child starts with every pipe-bank descriptor open
(all pipes were created before any fork); if `i > 0` it redirects stdin
to the read end of pipe i-1 and closes that pipe's write end; if
`i < n-1` it redirects stdout to the write end of pipe i and closes that
pipe's read end; finally `close_pipes` closes every pipe-bank
descriptor, and the child execs the command. -/
def exec_commandChild (i n : Nat) : ChildState :=
  let open0 : Nat × Bool → Bool := fun p => decide (p.1 < n - 1)
  let open1 := if 0 < i then closeFd (i - 1, true) open0 else open0
  let in1 : StdSrc := if 0 < i then .pipeRd (i - 1) else .inherited
  let open2 := if i < n - 1 then closeFd (i, false) open1 else open1
  let out1 : StdSrc := if i < n - 1 then .pipeWr i else .inherited
  ⟨closeUpTo (n - 1) open2, in1, out1⟩

/-- Result of `execute` (mexec.c:268-273) in the child: the process
image was replaced by the program found under the given name with the
given argv, or `execlp` failed and the child reported and exited with
failure status. -/
inductive ExecResult
  | replaced (prog : String) (argv : List String)
  | failedExit (msg : String)
  deriving DecidableEq, Repr

/-- `execute` (mexec.c:268-273): `execlp("sh", "sh", "-c", command,
NULL)`, and on failure `perror` plus `exit(EXIT_FAILURE)`. -/
def execute (command : String) (execOk : Bool) : ExecResult :=
  if execOk then .replaced "sh" ["sh", "-c", command]
  else .failedExit "Exec failed"

/-! ### Helper lemmas about the component loops -/

lemma create_pipesLoop_ok (pipeOk : Nat → Bool) :
    ∀ (r i : Nat), (∀ k, k < r → pipeOk (i + k) = true) →
      create_pipesLoop pipeOk i r = (i + r, none) := by
  intro r
  induction r with
  | zero => intro i _; simp [create_pipesLoop]
  | succ r ih =>
    intro i h
    have h0 : pipeOk i = true := by have := h 0 (by omega); simpa using this
    have hrec := ih (i + 1) (fun k hk => by
      have := h (k + 1) (by omega)
      simpa [Nat.add_assoc, Nat.add_comm 1 k] using this)
    simp only [create_pipesLoop, h0, if_true, hrec]
    congr 1
    omega

lemma create_pipesLoop_fail (pipeOk : Nat → Bool) :
    ∀ (r i d : Nat), d < r → (∀ k, k < d → pipeOk (i + k) = true) →
      pipeOk (i + d) = false →
      create_pipesLoop pipeOk i r = (i + d, some "Pipe failed") := by
  intro r
  induction r with
  | zero => intro i d hd; omega
  | succ r ih =>
    intro i d hd hall hfail
    cases d with
    | zero =>
      have h0 : pipeOk i = false := by simpa using hfail
      simp [create_pipesLoop, h0]
    | succ d =>
      have h0 : pipeOk i = true := by have := hall 0 (by omega); simpa using this
      have hrec := ih (i + 1) d (by omega)
        (fun k hk => by
          have := hall (k + 1) (by omega)
          simpa [Nat.add_assoc, Nat.add_comm 1 k] using this)
        (by
          have heq : i + 1 + d = i + (d + 1) := by omega
          rw [heq]; exact hfail)
      have harg : i + 1 + d = i + (d + 1) := by omega
      rw [harg] at hrec
      simp [create_pipesLoop, h0, hrec]

lemma launchLoop_ok (forkOk : Nat → Bool) (pid : Nat → Int) :
    ∀ (r i : Nat), (∀ k, k < r → forkOk (i + k) = true) →
      launchLoop forkOk pid i r = ((List.range r).map (fun k => pid (i + k)), none) := by
  intro r
  induction r with
  | zero => intro i _; simp [launchLoop]
  | succ r ih =>
    intro i h
    have h0 : forkOk i = true := by have := h 0 (by omega); simpa using this
    have hrec := ih (i + 1) (fun k hk => by
      have := h (k + 1) (by omega)
      simpa [Nat.add_assoc, Nat.add_comm 1 k] using this)
    simp only [launchLoop, h0, if_true, hrec]
    have hrange : (List.range (r + 1)).map (fun k => pid (i + k)) =
        pid i :: (List.range r).map (fun k => pid (i + 1 + k)) := by
      rw [List.range_succ_eq_map]
      simp only [List.map_cons, Nat.add_zero, List.map_map]
      congr 1
      apply List.map_congr_left
      intro a _
      simp only [Function.comp_apply]
      congr 1
      omega
    rw [hrange]

lemma launchRun_ok (n : Nat) (forkOk : Nat → Bool) (pid : Nat → Int)
    (h : ∀ k, k < n → forkOk k = true) :
    launchRun n forkOk pid = ((List.range n).map pid, none) := by
  have := launchLoop_ok forkOk pid n 0 (fun k hk => by simpa using h k hk)
  simpa [launchRun] using this

lemma waitLoop_zero (waitRes : Nat → Option Int)
    (h : ∀ i s, waitRes i = some s → s = 0) :
    ∀ (r i : Nat), waitLoop waitRes 0 i r = .completed := by
  intro r
  induction r with
  | zero => intro i; rfl
  | succ r ih =>
    intro i
    have hs : (waitRes i).getD 0 = 0 := by
      cases hw : waitRes i with
      | none => rfl
      | some v => simpa using h i v hw
    simp [waitLoop, hs, ih]

lemma waitLoop_some_completed (g : Nat → Int) :
    ∀ (r i : Nat) (s : Int), (∀ k, k < r → g (i + k) = 0) →
      waitLoop (fun j => some (g j)) s i r = .completed := by
  intro r
  induction r with
  | zero => intro i s _; rfl
  | succ r ih =>
    intro i s h
    have h0 : g i = 0 := by have := h 0 (by omega); simpa using this
    have hrec := ih (i + 1) 0 (fun k hk => by
      have := h (k + 1) (by omega)
      simpa [Nat.add_assoc, Nat.add_comm 1 k] using this)
    simp [waitLoop, h0, hrec]

lemma waitLoop_some_all_zero (g : Nat → Int) :
    ∀ (r i : Nat) (s : Int), waitLoop (fun j => some (g j)) s i r = .completed →
      ∀ k, k < r → g (i + k) = 0 := by
  intro r
  induction r with
  | zero => intro i s _ k hk; omega
  | succ r ih =>
    intro i s hcomp k hk
    by_cases h0 : g i = 0
    · cases k with
      | zero => simpa using h0
      | succ k =>
        have hrec : waitLoop (fun j => some (g j)) 0 (i + 1) r = .completed := by
          simpa [waitLoop, h0] using hcomp
        have := ih (i + 1) 0 hrec k (by omega)
        simpa [Nat.add_assoc, Nat.add_comm 1 k] using this
    · exfalso
      simp [waitLoop, h0] at hcomp

lemma waitLoop_some_failed (g : Nat → Int) :
    ∀ (r i d : Nat) (s : Int), d < r → (∀ k, k < d → g (i + k) = 0) →
      g (i + d) ≠ 0 →
      waitLoop (fun j => some (g j)) s i r = .failedAt (i + d) := by
  intro r
  induction r with
  | zero => intro i d s hd; omega
  | succ r ih =>
    intro i d s hd hall hfail
    cases d with
    | zero =>
      have h0 : g i ≠ 0 := by simpa using hfail
      simp [waitLoop, h0]
    | succ d =>
      have h0 : g i = 0 := by have := hall 0 (by omega); simpa using this
      have hrec := ih (i + 1) d 0 (by omega)
        (fun k hk => by
          have := hall (k + 1) (by omega)
          simpa [Nat.add_assoc, Nat.add_comm 1 k] using this)
        (by
          have heq : i + 1 + d = i + (d + 1) := by omega
          rw [heq]; exact hfail)
      have harg : i + 1 + d = i + (d + 1) := by omega
      rw [harg] at hrec
      simp [waitLoop, h0, hrec]

/-! ### Reduction lemmas for `mainRun` -/

lemma mainRun_stdin (fopenOk : Bool) (n : Nat) (orc : Oracles) :
    mainRun 1 fopenOk n orc = pipelineRun n orc := rfl

lemma mainRun_pipe_fail (n : Nat) (orc : Oracles) (j : Nat) (m : String)
    (h : create_pipes n orc.pipeOk = (j, some m)) :
    mainRun 1 true n orc = ⟨j, 0, [], [], 0, .failure m⟩ := by
  rw [mainRun_stdin]
  unfold pipelineRun
  rw [h]

lemma mainRun_ok (n : Nat) (orc : Oracles)
    (hp : ∀ i, i < n - 1 → orc.pipeOk i = true)
    (hf : ∀ j, j < n → orc.forkOk j = true) :
    mainRun 1 true n orc =
      match wait_for_processes n orc.waitRes orc.status0 with
      | .completed =>
          ⟨n - 1, n, (List.range n).map orc.pid, close_pipes n orc.closeRes, n, .success⟩
      | .failedAt i =>
          ⟨n - 1, n, (List.range n).map orc.pid, close_pipes n orc.closeRes, i + 1,
            .failure "Child process failed"⟩ := by
  rw [mainRun_stdin]
  unfold pipelineRun
  have hcp : create_pipes n orc.pipeOk = (n - 1, none) := by
    have := create_pipesLoop_ok orc.pipeOk (n - 1) 0 (fun k hk => by simpa using hp k hk)
    simpa [create_pipes] using this
  rw [hcp, launchRun_ok n orc.forkOk orc.pid hf]
  simp

/-! ### The claims -/

/-- C1: for empty input (zero command lines) `read_input` yields zero
commands, and `main` then creates zero pipes, launches zero processes,
performs zero waits and exits with status 0, whatever the OS oracles
would answer. -/
theorem c1_empty_input :
    read_input [] = [] ∧
    ∀ orc : Oracles, mainRun 1 true 0 orc = ⟨0, 0, [], [], 0, .success⟩ :=
  ⟨rfl, fun _ => rfl⟩

/-- C8: `execute` hands the command string verbatim to `sh -c` as the
single script argument (argv = ["sh", "-c", command]), and if replacing
the process image fails the child reports "Exec failed" and terminates
with failure status. -/
theorem c8_shell_invocation :
    ∀ command : String,
      execute command true = .replaced "sh" ["sh", "-c", command] ∧
      execute command false = .failedExit "Exec failed" :=
  fun _ => ⟨rfl, rfl⟩

/-- A run of two commands in which every OS call succeeds except that
the second `waitpid` fails (e.g. the pid was already reaped or is
invalid); the first wait stores status 0. -/
def orcWaitFail : Oracles :=
  ⟨fun _ => true, fun _ => true, fun _ => 0, fun _ => (true, true),
    fun i => if i = 0 then some 0 else none, 0⟩

/-- C2 counterexample: `wait_for_processes` never inspects `waitpid`'s
return value, so a failed wait is NOT reported.  Here the wait for
process 1 fails (`waitRes 1 = none`), the `status` variable keeps its
previous value 0, the loop completes, and the whole program exits with
status 0 — no error is reported and the program does not terminate on
the wait failure, contradicting the claim. -/
theorem c2_wait_failure_counterexample :
    orcWaitFail.waitRes 1 = none ∧
    wait_for_processes 2 orcWaitFail.waitRes 0 = .completed ∧
    mainRun 1 true 2 orcWaitFail = ⟨1, 2, [0, 0], [true, true], 2, .success⟩ := by
  decide

/-- C2 amended: `wait_for_processes` does not detect wait failures.  A
failed `waitpid` leaves the `status` variable unchanged, and only
`status != 0` is checked; hence whenever every successful wait stores
status 0 (and the carried status starts at 0), the loop runs to
completion regardless of which — or how many — wait calls fail, and no
error is reported. -/
theorem c2_wait_failure_ignored (n : Nat) (waitRes : Nat → Option Int)
    (h : ∀ i s, waitRes i = some s → s = 0) :
    wait_for_processes n waitRes 0 = .completed :=
  waitLoop_zero waitRes h n 0

/-- Witness for C2 amended: with every `waitpid` call failing, the loop
over two processes still completes. -/
theorem c2_wait_failure_ignored_witness :
    wait_for_processes 2 (fun _ => none) 0 = .completed :=
  c2_wait_failure_ignored 2 (fun _ => none) (fun _ _ h => nomatch h)

/-- A run of two commands in which both of the parent's `close` calls
fail, while pipes, forks and waits all succeed with status 0. -/
def orcCloseFail : Oracles :=
  ⟨fun _ => true, fun _ => true, fun _ => 0, fun _ => (false, false),
    fun _ => some 0, 0⟩

/-- C3 counterexample: `close_pipes` discards the return value of every
`close` call.  Here both of the parent's closes fail, yet no error is
reported, the program goes on to reap both children and exits with
status 0 — a close failure is not fatal, contradicting the claim. -/
theorem c3_close_failure_counterexample :
    close_pipes 2 orcCloseFail.closeRes = [false, false] ∧
    mainRun 1 true 2 orcCloseFail = ⟨1, 2, [0, 0], [false, false], 2, .success⟩ := by
  decide

/-- C3 amended: the parent ignores the outcomes of its `close` calls:
`close_pipes` has no failure path, and on a run whose pipes, forks and
waits succeed the program exits 0 whatever the close outcomes `cr` are
— close failures are neither reported nor fatal. -/
theorem c3_close_failure_ignored (n : Nat) (pk fk : Nat → Bool) (pd : Nat → Int)
    (cr : Nat → Bool × Bool) (wr : Nat → Option Int)
    (hp : ∀ i, i < n - 1 → pk i = true)
    (hf : ∀ j, j < n → fk j = true)
    (hw : ∀ i s, wr i = some s → s = 0) :
    (mainRun 1 true n ⟨pk, fk, pd, cr, wr, 0⟩).exit = .success := by
  rw [mainRun_ok n ⟨pk, fk, pd, cr, wr, 0⟩ hp hf]
  have hcomp : wait_for_processes n wr 0 = .completed := waitLoop_zero wr hw n 0
  rw [hcomp]

/-- Witness for C3 amended: a concrete two-command run in which every
close fails still exits with status 0. -/
theorem c3_close_failure_ignored_witness :
    (mainRun 1 true 2
      ⟨fun _ => true, fun _ => true, fun _ => 0, fun _ => (false, false),
        fun _ => some 0, 0⟩).exit = .success :=
  c3_close_failure_ignored 2 (fun _ => true) (fun _ => true) (fun _ => 0)
    (fun _ => (false, false)) (fun _ => some 0)
    (by decide) (by decide) (fun _ s h => (Option.some.inj h).symm)

/-- C5: `create_pipes` makes exactly `number_of_commands - 1` `pipe()`
calls, i.e. max(N-1, 0) pipe pairs for N commands, before any fork; and
if some `pipe()` call fails, the program reports "Pipe failed" and
exits with a failure code having launched zero processes. -/
theorem c5_pipe_bank (n : Nat) (orc : Oracles) :
    ((∀ i, i < n - 1 → orc.pipeOk i = true) →
      create_pipes n orc.pipeOk = (n - 1, none) ∧
      ((n - 1 : Nat) : Int) = max ((n : Int) - 1) 0) ∧
    (∀ j, j < n - 1 → orc.pipeOk j = false → (∀ k, k < j → orc.pipeOk k = true) →
      create_pipes n orc.pipeOk = (j, some "Pipe failed") ∧
      (mainRun 1 true n orc).exit = .failure "Pipe failed" ∧
      (mainRun 1 true n orc).launched = 0) := by
  constructor
  · intro hp
    constructor
    · have := create_pipesLoop_ok orc.pipeOk (n - 1) 0 (fun k hk => by simpa using hp k hk)
      simpa [create_pipes] using this
    · omega
  · intro j hj hfail hall
    have hcp : create_pipes n orc.pipeOk = (j, some "Pipe failed") := by
      have := create_pipesLoop_fail orc.pipeOk (n - 1) 0 j hj
        (fun k hk => by simpa using hall k hk) (by simpa using hfail)
      simpa [create_pipes] using this
    refine ⟨hcp, ?_, ?_⟩
    · rw [mainRun_pipe_fail n orc j "Pipe failed" hcp]
    · rw [mainRun_pipe_fail n orc j "Pipe failed" hcp]

/-- An oracle whose second `pipe()` call fails. -/
def orcPipeFail : Oracles :=
  ⟨fun i => decide (i = 0), fun _ => true, fun _ => 0, fun _ => (true, true),
    fun _ => some 0, 0⟩

/-- Witness for C5: with three commands, the all-success branch creates
exactly two pipes, and with the second `pipe()` failing the program
exits with "Pipe failed" having launched nothing. -/
theorem c5_pipe_bank_witness :
    create_pipes 3 (fun _ => true) = (2, none) ∧
    create_pipes 3 orcPipeFail.pipeOk = (1, some "Pipe failed") ∧
    (mainRun 1 true 3 orcPipeFail).launched = 0 :=
  ⟨((c5_pipe_bank 3 ⟨fun _ => true, fun _ => true, fun _ => 0, fun _ => (true, true),
      fun _ => some 0, 0⟩).1 (by decide)).1,
   ((c5_pipe_bank 3 orcPipeFail).2 1 (by decide) (by decide) (by decide)).1,
   ((c5_pipe_bank 3 orcPipeFail).2 1 (by decide) (by decide) (by decide)).2.2⟩

/-- An all-success oracle used to witness the argument-dispatch claim. -/
def orcPlain : Oracles :=
  ⟨fun _ => true, fun _ => true, fun _ => 0, fun _ => (true, true),
    fun _ => some 0, 0⟩

/-- C7: with zero user arguments (argc = 1, the program name) the
commands are read from standard input; with one argument (argc = 2) the
file is used, and if it cannot be opened the program reports "File
could not be opened" and exits non-zero; with any other argument count
it reports a usage error and exits non-zero; in both error cases zero
processes are launched. -/
theorem c7_argument_dispatch (argc : Nat) (fopenOk : Bool) (n : Nat) (orc : Oracles) :
    (argc = 1 → chooseSource argc fopenOk = .ok .fromStdin) ∧
    (argc = 2 → fopenOk = true → chooseSource argc fopenOk = .ok .fromFile) ∧
    (argc = 2 → fopenOk = false →
      (mainRun argc fopenOk n orc).exit = .failure "File could not be opened" ∧
      (mainRun argc fopenOk n orc).launched = 0) ∧
    (argc ≠ 1 → argc ≠ 2 →
      (mainRun argc fopenOk n orc).exit = .failure "Wrong number of arguments" ∧
      (mainRun argc fopenOk n orc).launched = 0) := by
  refine ⟨?_, ?_, ?_, ?_⟩
  · intro h1; subst h1; rfl
  · intro h2 hok; subst h2; subst hok; rfl
  · intro h2 hok; subst h2; subst hok
    constructor <;> rfl
  · intro h1 h2
    have hcs : chooseSource argc fopenOk = .error "Wrong number of arguments" := by
      simp [chooseSource, h1, h2]
    constructor <;> simp [mainRun, hcs]

/-- Witness for C7: four arguments give the usage error with nothing
launched, and a failing `fopen` with one argument gives the open error. -/
theorem c7_argument_dispatch_witness :
    (mainRun 5 true 4 orcPlain).exit = .failure "Wrong number of arguments" ∧
    (mainRun 2 false 4 orcPlain).exit = .failure "File could not be opened" :=
  ⟨((c7_argument_dispatch 5 true 4 orcPlain).2.2.2 (by decide) (by decide)).1,
   ((c7_argument_dispatch 2 false 4 orcPlain).2.2.1 rfl rfl).1⟩

lemma encodeStatus_eq_zero_iff (t : Termination) (hv : validTermB t = true) :
    encodeStatus t = 0 ↔ t = .exited 0 := by
  cases t with
  | exited c =>
    simp only [encodeStatus, Termination.exited.injEq]
    omega
  | signaled s =>
    simp only [validTermB, decide_eq_true_eq] at hv
    simp only [encodeStatus]
    constructor
    · intro hz; exfalso; omega
    · intro hc; exact nomatch hc

/-- C4: assuming a clean run (pipes, forks and all waits succeed, with
`waitpid` storing the POSIX-encoded status of termination `ts i` for
process i), the raw status is zero iff the process exited normally with
status 0; the Reaper scans the recorded statuses in launch order; on
the first failing one (index j) the program exits with a failure code
having made only j+1 wait calls — the remaining statuses are never
collected — and the program exits 0 iff every stage exited with
status 0. -/
theorem c4_reaper (n : Nat) (ts : Nat → Termination) (orc : Oracles)
    (hp : ∀ i, i < n - 1 → orc.pipeOk i = true)
    (hf : ∀ j, j < n → orc.forkOk j = true)
    (hw : orc.waitRes = fun i => some (encodeStatus (ts i)))
    (hv : ∀ i, i < n → validTermB (ts i) = true) :
    ((mainRun 1 true n orc).exit = .success ↔ ∀ i, i < n → ts i = .exited 0) ∧
    (∀ j, j < n → ts j ≠ .exited 0 → (∀ k, k < j → ts k = .exited 0) →
      (mainRun 1 true n orc).exit = .failure "Child process failed" ∧
      (mainRun 1 true n orc).waits = j + 1) := by
  have hmain := mainRun_ok n orc hp hf
  rw [hw] at hmain
  constructor
  · rcases hwo : wait_for_processes n (fun i => some (encodeStatus (ts i))) orc.status0
      with _ | i
    · rw [hmain, hwo]
      simp only [iff_true_intro rfl]
      constructor
      · intro _ k hk
        have hcast : waitLoop (fun j => some (encodeStatus (ts j))) orc.status0 0 n =
            .completed := hwo
        have hz := waitLoop_some_all_zero (fun j => encodeStatus (ts j)) n 0 orc.status0
          hcast k hk
        rw [← encodeStatus_eq_zero_iff (ts k) (hv k hk)]
        simpa using hz
      · intro _; trivial
    · rw [hmain, hwo]
      constructor
      · intro hcontra; exact absurd hcontra (by simp)
      · intro hall
        exfalso
        have hcomp : waitLoop (fun j => some (encodeStatus (ts j))) orc.status0 0 n =
            .completed :=
          waitLoop_some_completed (fun j => encodeStatus (ts j)) n 0 orc.status0
            (fun k hk => by
              have := (encodeStatus_eq_zero_iff (ts k) (hv k (by omega))).mpr
                (hall k (by omega))
              simpa using this)
        have : WaitOutcome.completed = WaitOutcome.failedAt i := hcomp.symm.trans hwo
        exact nomatch this
  · intro j hj hne hall
    have hfail : wait_for_processes n (fun i => some (encodeStatus (ts i))) orc.status0 =
        .failedAt j := by
      have := waitLoop_some_failed (fun i => encodeStatus (ts i)) n 0 j orc.status0 hj
        (fun k hk => by
          have := (encodeStatus_eq_zero_iff (ts k) (hv k (by omega))).mpr (hall k hk)
          simpa using this)
        (by
          have hvne := (encodeStatus_eq_zero_iff (ts j) (hv j hj)).not.mpr hne
          simpa using hvne)
      simpa [wait_for_processes] using this
    rw [hmain, hfail]
    exact ⟨rfl, rfl⟩

/-- An oracle for a clean two-command run in which both children exit
normally with status 0 and `waitpid` reports their encoded statuses. -/
def orcClean : Oracles :=
  ⟨fun _ => true, fun _ => true, fun _ => 7, fun _ => (true, true),
    fun i => some (encodeStatus ((fun _ => Termination.exited 0) i)), 0⟩

/-- Witness for C4: a clean two-command run in which both stages exit
with status 0 makes the program exit 0. -/
theorem c4_reaper_witness : (mainRun 1 true 2 orcClean).exit = .success :=
  (c4_reaper 2 (fun _ => Termination.exited 0) orcClean
      (by decide) (by decide) rfl (by decide)).1.mpr (fun _ _ => rfl)

lemma closeUpTo_eval :
    ∀ (m : Nat) (f : Nat × Bool → Bool) (p : Nat × Bool),
      closeUpTo m f p = if p.1 < m then false else f p := by
  intro m
  induction m with
  | zero => intro f p; simp [closeUpTo]
  | succ m ih =>
    intro f p
    rcases p with ⟨j, e⟩
    simp only [closeUpTo, closeFd, ih, Prod.mk.injEq]
    cases e <;> split_ifs <;> simp_all <;> omega

/-- C6: in the child for command index i of n, after the rewiring and
`close_pipes`, every descriptor of every pipe in the bank is closed;
its standard input is the read end of pipe i-1 when i > 0 (otherwise
inherited) and its standard output is the write end of pipe i when
i < n-1 (otherwise inherited); and the parent's launch loop merely
records the i-th fork's pid at position i — `launchRun` returns the
pids in launch order and performs no wait. -/
theorem c6_child_wiring (i n : Nat) (_hin : i < n) (pid : Nat → Int) (forkOk : Nat → Bool)
    (hf : ∀ j, j < n → forkOk j = true) :
    (∀ j, j < n - 1 → ∀ e : Bool, (exec_commandChild i n).opens (j, e) = false) ∧
    (exec_commandChild i n).stdinSrc = (if 0 < i then .pipeRd (i - 1) else .inherited) ∧
    (exec_commandChild i n).stdoutSrc = (if i < n - 1 then .pipeWr i else .inherited) ∧
    launchRun n forkOk pid = ((List.range n).map pid, none) := by
  refine ⟨?_, rfl, rfl, launchRun_ok n forkOk pid hf⟩
  intro j hj e
  simp only [exec_commandChild]
  rw [closeUpTo_eval]
  simp [hj]

/-- Witness for C6: the middle command of three ends with no pipe-bank
descriptor open, stdin on the read end of pipe 0, stdout on the write
end of pipe 1, and three pids recorded in order. -/
theorem c6_child_wiring_witness :
    (exec_commandChild 1 3).opens (0, true) = false ∧
    (exec_commandChild 1 3).stdinSrc = StdSrc.pipeRd 0 ∧
    (exec_commandChild 1 3).stdoutSrc = StdSrc.pipeWr 1 ∧
    launchRun 3 (fun _ => true) (fun j => (j : Int)) =
      ((List.range 3).map (fun j => (j : Int)), none) :=
  ⟨(c6_child_wiring 1 3 (by decide) (fun j => (j : Int)) (fun _ => true) (by decide)).1
      0 (by decide) true,
   (c6_child_wiring 1 3 (by decide) (fun j => (j : Int)) (fun _ => true) (by decide)).2.1,
   (c6_child_wiring 1 3 (by decide) (fun j => (j : Int)) (fun _ => true) (by decide)).2.2.1,
   (c6_child_wiring 1 3 (by decide) (fun j => (j : Int)) (fun _ => true) (by decide)).2.2.2⟩

/-! ### Helper lemmas about `fgets` and `read_input` -/

lemma fgets_ne_nil (input : List Char) (h : input ≠ []) :
    fgets input = some (fgetsTake 1023 input) := by
  cases input with
  | nil => exact absurd rfl h
  | cons c tl => rfl

lemma fgetsTake_length : ∀ (input : List Char) (k : Nat), (fgetsTake k input).1.length ≤ k := by
  intro input
  induction input with
  | nil => intro k; simp [fgetsTake]
  | cons c rest ih =>
    intro k
    cases k with
    | zero => simp [fgetsTake]
    | succ k =>
      by_cases hc : c = '\n'
      · simp [fgetsTake, hc]
      · simp only [fgetsTake, hc, if_false, List.length_cons]
        exact Nat.succ_le_succ (ih k)

lemma fgetsTake_all : ∀ (l : List Char) (k : Nat), '\n' ∉ l → l.length < k →
    fgetsTake k (l ++ ['\n']) = (l ++ ['\n'], []) := by
  intro l
  induction l with
  | nil =>
    intro k _ hk
    cases k with
    | zero => omega
    | succ k => simp [fgetsTake]
  | cons c l ih =>
    intro k hn hk
    cases k with
    | zero => simp at hk
    | succ k =>
      have hc : ¬ c = '\n' := fun h => hn (by simp [h])
      have hrec := ih k (fun h => hn (List.mem_cons_of_mem _ h)) (by
        simp only [List.length_cons] at hk
        omega)
      simp [fgetsTake, hc, hrec]

lemma fgetsTake_full : ∀ (k : Nat) (l : List Char), '\n' ∉ l.take k → k ≤ l.length →
    fgetsTake k l = (l.take k, l.drop k) := by
  intro k
  induction k with
  | zero => intro l _ _; cases l <;> simp [fgetsTake]
  | succ k ih =>
    intro l hn hk
    cases l with
    | nil => simp at hk
    | cons c rest =>
      rw [List.take_succ_cons] at hn
      have hc : ¬ c = '\n' := fun h => hn (by simp [h])
      have hn' : '\n' ∉ rest.take k := fun h => hn (List.mem_cons_of_mem _ h)
      have hrec := ih rest hn' (by simpa using hk)
      simp [fgetsTake, hc, hrec, List.take_succ_cons, List.drop_succ_cons]

lemma fgetsTake_cons (k : Nat) (c : Char) (rest : List Char) (hc : ¬ c = '\n') :
    fgetsTake (k + 1) (c :: rest) =
      (c :: (fgetsTake k rest).1, (fgetsTake k rest).2) := by
  simp [fgetsTake, hc]

lemma cstr_all (l : List Char) (h : NUL ∉ l) : cstr l = l := by
  apply List.takeWhile_eq_self_iff.mpr
  intro x hx
  simp only [ne_eq, decide_eq_true_eq]
  intro hEq
  exact h (hEq ▸ hx)

lemma read_inputFuel_nil : ∀ f, read_inputFuel f [] = [] := by
  intro f
  cases f <;> simp [read_inputFuel, fgets]

lemma newline_not_mem_concat (line : List Char) (hz : NUL ∉ line) :
    NUL ∉ line ++ ['\n'] := by
  intro hmem
  rcases List.mem_append.mp hmem with h | h
  · exact hz h
  · simp only [List.mem_singleton] at h
    exact absurd h (by decide)

/-- The key behaviour of the `read_input` loop on one input line (a
newline-free, NUL-free character sequence followed by a newline): the
produced command strings concatenate back to the line (so the newline
is stripped exactly once, from the final fragment), every fragment is
at most 1023 characters and newline-free, and a line longer than 1023
characters yields at least two fragments. -/
lemma read_input_line :
    ∀ (fuel : Nat) (line : List Char), line.length + 2 ≤ fuel → '\n' ∉ line → NUL ∉ line →
      (read_inputFuel fuel (line ++ ['\n'])).flatten = line ∧
      read_inputFuel fuel (line ++ ['\n']) ≠ [] ∧
      (∀ c ∈ read_inputFuel fuel (line ++ ['\n']), c.length ≤ 1023 ∧ '\n' ∉ c) ∧
      (1023 < line.length → 2 ≤ (read_inputFuel fuel (line ++ ['\n'])).length) := by
  intro fuel
  induction fuel with
  | zero => intro line hf; omega
  | succ fuel ih =>
    intro line hf hn hz
    have hne : line ++ ['\n'] ≠ [] := by simp
    by_cases hlen : line.length ≤ 1022
    · have hchunk : fgetsTake 1023 (line ++ ['\n']) = (line ++ ['\n'], []) :=
        fgetsTake_all line 1023 hn (by omega)
      have hfg : fgets (line ++ ['\n']) = some (line ++ ['\n'], []) := by
        rw [fgets_ne_nil _ hne, hchunk]
      have hstrip : stripAndDup (line ++ ['\n']) = line := by
        have hcs : cstr (line ++ ['\n']) = line ++ ['\n'] :=
          cstr_all _ (newline_not_mem_concat line hz)
        simp [stripAndDup, hcs, List.getLast?_concat, List.dropLast_concat]
      have hstep : read_inputFuel (fuel + 1) (line ++ ['\n']) = [line] := by
        simp only [read_inputFuel, hfg, hstrip, read_inputFuel_nil]
      rw [hstep]
      refine ⟨by simp, by simp, ?_, ?_⟩
      · intro c hc
        simp only [List.mem_singleton] at hc
        subst hc
        exact ⟨by omega, hn⟩
      · intro hlong; omega
    · push_neg at hlen
      have htk : '\n' ∉ (line ++ ['\n']).take 1023 := by
        rw [List.take_append_of_le_length (by omega)]
        exact fun hmem => hn (List.take_subset _ _ hmem)
      have hchunk := fgetsTake_full 1023 (line ++ ['\n']) htk (by simp; omega)
      have htake : (line ++ ['\n']).take 1023 = line.take 1023 :=
        List.take_append_of_le_length (by omega)
      have hdrop : (line ++ ['\n']).drop 1023 = line.drop 1023 ++ ['\n'] :=
        List.drop_append_of_le_length (by omega)
      rw [htake, hdrop] at hchunk
      have hfg : fgets (line ++ ['\n']) = some (line.take 1023, line.drop 1023 ++ ['\n']) := by
        rw [fgets_ne_nil _ hne, hchunk]
      have hznotin : NUL ∉ line.take 1023 := fun h => hz (List.take_subset _ _ h)
      have hnnotin : '\n' ∉ line.take 1023 := fun h => hn (List.take_subset _ _ h)
      have hstrip : stripAndDup (line.take 1023) = line.take 1023 := by
        have hcs : cstr (line.take 1023) = line.take 1023 := cstr_all _ hznotin
        have hlast : ¬ (line.take 1023).getLast? = some '\n' :=
          fun hl => hnnotin (List.mem_of_mem_getLast? hl)
        simp [stripAndDup, hcs, hlast]
      have hstep : read_inputFuel (fuel + 1) (line ++ ['\n']) =
          line.take 1023 :: read_inputFuel fuel (line.drop 1023 ++ ['\n']) := by
        simp only [read_inputFuel, hfg, hstrip]
      obtain ⟨hjoin, hnnil, hprops, _⟩ := ih (line.drop 1023)
        (by simp only [List.length_drop]; omega)
        (fun h => hn (List.drop_subset _ _ h))
        (fun h => hz (List.drop_subset _ _ h))
      rw [hstep]
      refine ⟨?_, by simp, ?_, ?_⟩
      · simp only [List.flatten_cons, hjoin]
        exact List.take_append_drop 1023 line
      · intro c hc
        rcases List.mem_cons.mp hc with h | h
        · subst h
          exact ⟨List.length_take_le _ _, hnnotin⟩
        · exact hprops c h
      · intro _
        have hpos : 0 < (read_inputFuel fuel (line.drop 1023 ++ ['\n'])).length :=
          List.length_pos.mpr hnnil
        simp only [List.length_cons]
        omega

/-- C9: each `fgets` read stores at most 1023 characters (1024-byte
buffer minus the terminator), so an input line longer than 1023
characters is split into at least two consecutive command strings whose
concatenation is exactly the line — the newline is stripped only from
the final fragment (no fragment contains a newline, and together they
lose only the single trailing newline). -/
theorem c9_line_splitting (line : List Char) (hn : '\n' ∉ line) (hz : NUL ∉ line)
    (hlong : 1023 < line.length) :
    2 ≤ (read_input (line ++ ['\n'])).length ∧
    (read_input (line ++ ['\n'])).flatten = line ∧
    (∀ c ∈ read_input (line ++ ['\n']), c.length ≤ 1023 ∧ '\n' ∉ c) ∧
    (∀ (input chunk rest : List Char), fgets input = some (chunk, rest) →
      chunk.length ≤ 1023) := by
  obtain ⟨hjoin, _, hprops, hlen2⟩ :=
    read_input_line ((line ++ ['\n']).length + 1) line (by simp) hn hz
  refine ⟨hlen2 hlong, hjoin, hprops, ?_⟩
  intro input chunk rest h
  cases input with
  | nil => exact nomatch h
  | cons c tl =>
    have hpair : fgetsTake 1023 (c :: tl) = (chunk, rest) := Option.some.inj h
    have hchunk : chunk = (fgetsTake 1023 (c :: tl)).1 := by rw [hpair]
    rw [hchunk]
    exact fgetsTake_length (c :: tl) 1023

set_option maxRecDepth 40000 in
/-- Witness for C9: a 1024-character line of the letter a followed by a
newline is read as at least two commands that concatenate back to the
original line. -/
theorem c9_line_splitting_witness :
    2 ≤ (read_input (List.replicate 1024 'a' ++ ['\n'])).length ∧
    (read_input (List.replicate 1024 'a' ++ ['\n'])).flatten = List.replicate 1024 'a' :=
  ⟨(c9_line_splitting (List.replicate 1024 'a') (by decide) (by decide) (by decide)).1,
   (c9_line_splitting (List.replicate 1024 'a') (by decide) (by decide) (by decide)).2.1⟩

/-- C10: the newline strip accesses index `strlen(line) - 1`, which is
non-negative (in bounds) precisely when the stored string is non-empty;
when the input line begins with a NUL byte, the chunk `fgets` stores
starts with that NUL, so `strlen` is 0 and the accessed index is -1 —
out of bounds (in C the `size_t` subtraction wraps to `SIZE_MAX`,
equally out of bounds). -/
theorem c10_strip_bounds (input chunk rest : List Char)
    (h : fgets (NUL :: input) = some (chunk, rest)) :
    cStrlen chunk = 0 ∧ stripIndex chunk = -1 ∧ ¬ (0 ≤ stripIndex chunk) ∧
    (∀ c : List Char, 0 ≤ stripIndex c ↔ 1 ≤ cStrlen c) := by
  have hfg : fgets (NUL :: input) = some (fgetsTake 1023 (NUL :: input)) := rfl
  rw [hfg] at h
  have hpair : fgetsTake 1023 (NUL :: input) = (chunk, rest) := Option.some.inj h
  have h1023 : (1023 : Nat) = 1022 + 1 := rfl
  rw [h1023, fgetsTake_cons 1022 NUL input (by decide)] at hpair
  have hc : chunk = NUL :: (fgetsTake 1022 input).1 := by
    have := congrArg Prod.fst hpair
    simpa using this.symm
  have hcs : cStrlen chunk = 0 := by
    rw [hc]
    simp [cStrlen, cstr]
  refine ⟨hcs, by simp [stripIndex, hcs], by simp [stripIndex, hcs], ?_⟩
  intro c
  simp only [stripIndex]
  omega

/-- Witness for C10: on the input consisting of a single NUL byte, the
stored string is empty and the strip index is -1. -/
theorem c10_strip_bounds_witness :
    cStrlen [NUL] = 0 ∧ stripIndex [NUL] = -1 :=
  ⟨(c10_strip_bounds [] [NUL] [] (by decide)).1,
   (c10_strip_bounds [] [NUL] [] (by decide)).2.1⟩

end Mexec
